import Mathlib

/-!
Verification of the String Column core of the cudf string module
(src/python/cudf/cudf/core/column/string.py) against its specification.

Two shallow embeddings are used:

1. A physical model mirroring the StringColumn class itself: base children
   (an int32 offsets column and a raw byte data column), base validity mask,
   a logical (offset, size) window, the derived children view, and the
   serialize/deserialize codec.

2. An operation-level model for the StringMethods accessor operations
   (len, contains, replace, split, datetime cast, cat, binary_operator),
   where a column is seen as its logical sequence of nullable rows plus a
   validity mask.  The nvstrings kernels that these wrappers call live
   outside the repository; they are modelled from the specification where
   their behaviour is needed, as noted on each such definition.
-/

namespace CudfString

/-- Window of a list: drop the first o elements, keep the next k.  This is
the list-level meaning of the zero-copy (offset, size) windows that
build_column produces on device buffers. -/
def sliceList (l : List α) (o k : Nat) : List α := (l.drop o).take k

/-! ## Physical model of StringColumn -/

/-- Physical state of a StringColumn: base children
(offsets as int32 values, character data as raw bytes), the base validity
mask (true means valid), and the logical (offset, size) window.
base children absent models the empty children tuple. -/
structure StrColumn where
  baseChildren : Option (List Int × List Nat)
  baseMask : Option (List Bool)
  offset : Nat
  size : Nat
deriving DecidableEq

/-- The size computation of StringColumn.__init__ when no explicit size is
passed: 0 if the children tuple is empty, 0 if the offsets child is empty,
otherwise the offsets length minus one; in every branch the offset is then
subtracted (the subtraction line in the source sits outside the branch). -/
def initSize (children : Option (List Int × List Nat)) (offset : Int) : Int :=
  (match children with
   | none => (0 : Int)
   | some (off, _) => if off.length = 0 then (0 : Int) else (off.length : Int) - 1)
  - offset

/-- The offsets_column local of StringColumn.children: the base offsets
column rebuilt as a window of size + 1 elements starting at the parent
offset. -/
def offsetsWindow (boff : List Int) (o s : Nat) : List Int := sliceList boff o (s + 1)

/-- The chars_offset local of StringColumn.children: element 0 of the
windowed offsets column, read before the subtraction. -/
def charsOffsetOf (boff : List Int) (o s : Nat) : Int := (offsetsWindow boff o s).getD 0 0

/-- The shifted offsets column of StringColumn.children: the windowed
offsets with chars_offset subtracted elementwise (the sub binary op). -/
def derivedOffsets (boff : List Int) (o s : Nat) : List Int :=
  (offsetsWindow boff o s).map (fun x => x - charsOffsetOf boff o s)

/-- The chars_size local of StringColumn.children: element size of the
shifted offsets column. -/
def charsSizeOf (boff : List Int) (o s : Nat) : Int := (derivedOffsets boff o s).getD s 0

/-- The rebuilt chars column of StringColumn.children: the base data
windowed at byte chars_offset with chars_size bytes. -/
def derivedChars (boff : List Int) (bdata : List Nat) (o s : Nat) : List Nat :=
  sliceList bdata (charsOffsetOf boff o s).toNat (charsSizeOf boff o s).toNat

/-- The derived children view of StringColumn.children: the empty tuple when
there are no base children; the base children unchanged on the fast path
(offset zero and offsets length equal to size plus one); otherwise the
windowed, shifted offsets column paired with the windowed chars column. -/
def StrColumn.children (c : StrColumn) : Option (List Int × List Nat) :=
  match c.baseChildren with
  | none => none
  | some (boff, bdata) =>
    if c.offset = 0 ∧ boff.length = c.size + 1 then some (boff, bdata)
    else some (derivedOffsets boff c.offset c.size, derivedChars boff bdata c.offset c.size)

/-- Validity of logical row r: bit offset + r of the base mask; an absent
mask means every row is valid. -/
def StrColumn.validAt (c : StrColumn) (r : Nat) : Bool :=
  match c.baseMask with
  | none => true
  | some m => m.getD (c.offset + r) true

/-- Modelled from the spec: the logical validity view of the column (the
mask attribute of the base Column class, which lives outside this
repository) is the base mask windowed to the logical rows. -/
def StrColumn.mask (c : StrColumn) : Option (List Bool) :=
  c.baseMask.map (fun m => sliceList m c.offset c.size)

/-- Number of null logical rows: false bits of the logical mask. -/
def StrColumn.nullCount (c : StrColumn) : Nat :=
  match c.mask with
  | none => 0
  | some m => m.count false

/-- Bytes of row r of a children pair: the data bytes delimited by
offsets r and r + 1. -/
def rowBytes (off : List Int) (dat : List Nat) (r : Nat) : List Nat :=
  sliceList dat (off.getD r 0).toNat ((off.getD (r + 1) 0).toNat - (off.getD r 0).toNat)

/-- Byte content of logical row r as presented through the derived
children view. -/
def StrColumn.contentAt (c : StrColumn) (r : Nat) : List Nat :=
  match c.children with
  | none => []
  | some (off, dat) => rowBytes off dat r

/-! ## Serialization -/

/-- A raw serialized buffer: int32 offsets, raw bytes, or validity bits. -/
inductive Frame
  | ints (xs : List Int)
  | bytes (xs : List Nat)
  | bits (xs : List Bool)
deriving DecidableEq

/-- Serialization header: the null count, the number of child subheaders,
and the frame count. -/
structure Header where
  nullCount : Nat
  nChildren : Nat
  frameCount : Nat
deriving DecidableEq

def Frame.getInts : Frame → List Int
  | .ints xs => xs
  | _ => []

def Frame.getBytes : Frame → List Nat
  | .bytes xs => xs
  | _ => []

def Frame.getBits : Frame → List Bool
  | .bits xs => xs
  | _ => []

/-- StringColumn.serialize: the frames of each derived child in order
(each child column contributes its one data buffer), then the mask when
the null count is positive; the header records the null count, the child
subheaders and the frame count. -/
def StrColumn.serialize (c : StrColumn) : Header × List Frame :=
  match c.children with
  | none =>
    let frames : List Frame :=
      if 0 < c.nullCount then [Frame.bits (c.mask.getD [])] else []
    ({ nullCount := c.nullCount, nChildren := 0, frameCount := frames.length }, frames)
  | some (off, dat) =>
    let frames : List Frame :=
      [Frame.ints off, Frame.bytes dat]
        ++ (if 0 < c.nullCount then [Frame.bits (c.mask.getD [])] else [])
    ({ nullCount := c.nullCount, nChildren := 2, frameCount := frames.length }, frames)

/-- build_column for a string dtype with no explicit size or offset:
the constructed column carries the given children and mask at offset 0,
with the size computed by StringColumn.__init__. -/
def buildColumn (mask : Option (List Bool)) (children : Option (List Int × List Nat)) :
    StrColumn :=
  { baseChildren := children, baseMask := mask, offset := 0,
    size := (initSize children 0).toNat }

/-- StringColumn.deserialize: the third buffer is the mask when the header
records a positive null count; the first two buffers are rebuilt into the
children (zipped against the child subheaders, so no children are rebuilt
when no subheaders were recorded); the column is rebuilt by build_column
with no explicit size. -/
def StrColumn.deserialize (h : Header) (frames : List Frame) : StrColumn :=
  let nbuf : Option (List Bool) :=
    if 0 < h.nullCount then some (frames.getD 2 (Frame.bits [])).getBits else none
  let children : Option (List Int × List Nat) :=
    if h.nChildren = 0 then none
    else some ((frames.getD 0 (Frame.ints [])).getInts,
               (frames.getD 1 (Frame.bytes [])).getBytes)
  buildColumn nbuf children

/-! ## List helper lemmas -/

lemma getD_eq_get (l : List α) (n : Nat) (d : α) (h : n < l.length) : l.getD n d = l[n] := by
  rw [List.getD_eq_getElem?_getD, List.getElem?_eq_getElem h]; rfl

lemma getD_eq_default (l : List α) (n : Nat) (d : α) (h : l.length ≤ n) : l.getD n d = d := by
  rw [List.getD_eq_getElem?_getD, List.getElem?_eq_none h]; rfl

lemma sliceList_length (l : List α) (o k : Nat) :
    (sliceList l o k).length = min k (l.length - o) := by
  simp [sliceList]

lemma sliceList_getD (l : List α) (o k r : Nat) (d : α) (hr : r < k) :
    (sliceList l o k).getD r d = l.getD (o + r) d := by
  unfold sliceList
  rw [List.getD_eq_getElem?_getD, List.getD_eq_getElem?_getD,
    List.getElem?_take_of_lt hr, List.getElem?_drop]

lemma map_getD (l : List α) (f : α → β) (r : Nat) (d : β) (d' : α) (h : r < l.length) :
    (l.map f).getD r d = f (l.getD r d') := by
  rw [getD_eq_get _ _ _ (by simpa using h), getD_eq_get _ _ _ h, List.getElem_map]

lemma sliceList_sliceList (l : List α) (o k o₂ k₂ : Nat) :
    sliceList (sliceList l o k) o₂ k₂ = sliceList l (o + o₂) (min k₂ (k - o₂)) := by
  unfold sliceList
  rw [List.drop_take, List.drop_drop, List.take_take]

lemma sorted_getD_mono (l : List Int) (hs : List.Sorted (· ≤ ·) l) (i j : Nat)
    (hij : i ≤ j) (hj : j < l.length) : l.getD i 0 ≤ l.getD j 0 := by
  have hi : i < l.length := lt_of_le_of_lt hij hj
  rw [getD_eq_get _ _ _ hi, getD_eq_get _ _ _ hj]
  exact hs.rel_get_of_le (show (⟨i, hi⟩ : Fin l.length) ≤ ⟨j, hj⟩ from hij)

/-! ## C6: the size computed by the constructor -/

/-- C6 counterexample: with the children tuple absent and offset 1, the
constructor computes size -1, not 0, because the line subtracting the
offset sits outside the branch on the children; the claim asserts size 0
for every offset when children are absent. -/
theorem initSize_absent_nonzero_offset :
    initSize none (1 : Int) = -1 ∧ ((-1 : Int) ≠ 0) := by constructor <;> decide

/-- C6 amended: with no explicit size, the constructed size is
base_offsets.size - 1 - offset when the children are present with a
nonempty offsets child, and -offset (hence 0 exactly when offset is 0)
when the children are absent or the offsets child is empty. -/
theorem initSize_spec (off : List Int) (dat : List Nat) (offset : Int) :
    (0 < off.length → initSize (some (off, dat)) offset = (off.length : Int) - 1 - offset) ∧
    (off.length = 0 → initSize (some (off, dat)) offset = -offset) ∧
    initSize none offset = -offset ∧ (initSize none offset = 0 ↔ offset = 0) := by
  refine ⟨fun h => ?_, fun h => ?_, ?_, ?_⟩
  · have h0 : off.length ≠ 0 := Nat.pos_iff_ne_zero.mp h
    simp [initSize, h0]
  · simp [initSize, h]
  · simp [initSize]
  · simp [initSize]

/-- C6 amended witness: concrete evaluation of the present-children case
with offsets of length 2 and offset 1. -/
theorem initSize_spec_witness :
    initSize (some (([0, 3] : List Int), ([] : List Nat))) 1
      = ((([0, 3] : List Int).length : Int)) - 1 - 1 :=
  (initSize_spec [0, 3] [] 1).1 (by decide)

/-! ## C2: the derived children view -/

lemma children_none (c : StrColumn) (h : c.baseChildren = none) : c.children = none := by
  unfold StrColumn.children; rw [h]

lemma children_fast (c : StrColumn) (boff : List Int) (bdata : List Nat)
    (h : c.baseChildren = some (boff, bdata)) (h0 : c.offset = 0)
    (hl : boff.length = c.size + 1) : c.children = some (boff, bdata) := by
  simp [StrColumn.children, h, h0, hl]

lemma children_slow (c : StrColumn) (boff : List Int) (bdata : List Nat)
    (h : c.baseChildren = some (boff, bdata))
    (hns : ¬(c.offset = 0 ∧ boff.length = c.size + 1)) :
    c.children = some (derivedOffsets boff c.offset c.size,
      derivedChars boff bdata c.offset c.size) := by
  simp [StrColumn.children, h, hns]

lemma offsetsWindow_length (boff : List Int) (o s : Nat) (hwin : o + s + 1 ≤ boff.length) :
    (offsetsWindow boff o s).length = s + 1 := by
  rw [offsetsWindow, sliceList_length]; omega

lemma charsOffsetOf_eq (boff : List Int) (o s : Nat) :
    charsOffsetOf boff o s = boff.getD o 0 := by
  rw [charsOffsetOf, offsetsWindow, sliceList_getD _ _ _ _ _ (by omega : 0 < s + 1),
    Nat.add_zero]

lemma derivedOffsets_length (boff : List Int) (o s : Nat) (hwin : o + s + 1 ≤ boff.length) :
    (derivedOffsets boff o s).length = s + 1 := by
  rw [derivedOffsets, List.length_map, offsetsWindow_length boff o s hwin]

lemma derivedOffsets_getD (boff : List Int) (o s k : Nat) (hk : k ≤ s)
    (hwin : o + s + 1 ≤ boff.length) :
    (derivedOffsets boff o s).getD k 0 = boff.getD (o + k) 0 - charsOffsetOf boff o s := by
  rw [derivedOffsets,
    map_getD _ _ _ _ 0 (by rw [offsetsWindow_length boff o s hwin]; omega),
    offsetsWindow, sliceList_getD _ _ _ _ _ (by omega : k < s + 1)]

/-- C2: for a String Column whose base children are present, whose base
offsets are sorted, start at 0 and end at the data length, and whose
(offset, size) window is valid, the derived children pair (offsets, data)
has offsets 0 at index 0 and the data window length at index size, row r
of the view carries exactly the bytes of base row offset + r for every
r below size, and when offset is 0 and the base offsets have size + 1
entries the base children are returned unchanged. -/
theorem children_view_spec (c : StrColumn) (boff : List Int) (bdata : List Nat)
    (hbc : c.baseChildren = some (boff, bdata))
    (hsorted : List.Sorted (· ≤ ·) boff)
    (hhead : boff.getD 0 0 = 0)
    (hlast : boff.getD (boff.length - 1) 0 = (bdata.length : Int))
    (hwin : c.offset + c.size + 1 ≤ boff.length) :
    ∃ off dat, c.children = some (off, dat) ∧
      off.getD 0 0 = 0 ∧
      off.getD c.size 0 = (dat.length : Int) ∧
      (∀ r, r < c.size → rowBytes off dat r = rowBytes boff bdata (c.offset + r)) ∧
      (c.offset = 0 → boff.length = c.size + 1 → c.children = c.baseChildren) := by
  by_cases hfast : c.offset = 0 ∧ boff.length = c.size + 1
  · refine ⟨boff, bdata, children_fast c boff bdata hbc hfast.1 hfast.2, hhead, ?_, ?_, ?_⟩
    · rw [show c.size = boff.length - 1 by omega]
      exact hlast
    · intro r _
      rw [hfast.1, Nat.zero_add]
    · intro _ _
      rw [children_fast c boff bdata hbc hfast.1 hfast.2, hbc]
  · have hδ0 : 0 ≤ charsOffsetOf boff c.offset c.size := by
      have h00 := sorted_getD_mono boff hsorted 0 c.offset (Nat.zero_le _) (by omega)
      rw [charsOffsetOf_eq]
      omega
    have hmono : ∀ i j, i ≤ j → j ≤ c.size →
        boff.getD (c.offset + i) 0 ≤ boff.getD (c.offset + j) 0 := by
      intro i j hij hj
      exact sorted_getD_mono boff hsorted _ _ (by omega) (by omega)
    have hδle : ∀ k, k ≤ c.size →
        charsOffsetOf boff c.offset c.size ≤ boff.getD (c.offset + k) 0 := by
      intro k hk
      rw [charsOffsetOf_eq]
      have := sorted_getD_mono boff hsorted c.offset (c.offset + k) (by omega) (by omega)
      exact this
    have hlastle : boff.getD (c.offset + c.size) 0 ≤ (bdata.length : Int) := by
      rw [← hlast]
      exact sorted_getD_mono boff hsorted _ _ (by omega) (by omega)
    have hcs : charsSizeOf boff c.offset c.size
        = boff.getD (c.offset + c.size) 0 - charsOffsetOf boff c.offset c.size := by
      rw [charsSizeOf, derivedOffsets_getD boff c.offset c.size c.size le_rfl hwin]
    refine ⟨derivedOffsets boff c.offset c.size, derivedChars boff bdata c.offset c.size,
      children_slow c boff bdata hbc hfast, ?_, ?_, ?_, ?_⟩
    · rw [derivedOffsets_getD boff c.offset c.size 0 (Nat.zero_le _) hwin,
        charsOffsetOf_eq, Nat.add_zero, sub_self]
    · have hδs := hδle c.size le_rfl
      rw [derivedOffsets_getD boff c.offset c.size c.size le_rfl hwin,
        derivedChars, sliceList_length, hcs]
      omega
    · intro r hr
      have hδr := hδle r (le_of_lt hr)
      have hδr1 := hδle (r + 1) hr
      have hrr1 := hmono r (r + 1) (Nat.le_succ r) hr
      have hr1s := hmono (r + 1) c.size hr le_rfl
      rw [rowBytes, rowBytes,
        derivedOffsets_getD boff c.offset c.size r (le_of_lt hr) hwin,
        derivedOffsets_getD boff c.offset c.size (r + 1) hr hwin,
        derivedChars, hcs, sliceList_sliceList]
      have h1 : (charsOffsetOf boff c.offset c.size).toNat
          + (boff.getD (c.offset + r) 0 - charsOffsetOf boff c.offset c.size).toNat
          = (boff.getD (c.offset + r) 0).toNat := by omega
      have h2 : min ((boff.getD (c.offset + (r + 1)) 0
              - charsOffsetOf boff c.offset c.size).toNat
            - (boff.getD (c.offset + r) 0 - charsOffsetOf boff c.offset c.size).toNat)
          ((boff.getD (c.offset + c.size) 0 - charsOffsetOf boff c.offset c.size).toNat
            - (boff.getD (c.offset + r) 0 - charsOffsetOf boff c.offset c.size).toNat)
          = (boff.getD (c.offset + (r + 1)) 0).toNat
            - (boff.getD (c.offset + r) 0).toNat := by omega
      rw [h1, h2]
      rfl
    · intro h0 hl
      exact absurd ⟨h0, hl⟩ hfast

/-- C2 witness: a concrete column with offsets [0, 1, 3, 6] over six data
bytes, windowed at offset 1 with size 2; every conclusion of the view
theorem is evaluated. -/
theorem children_view_spec_witness :
    ∃ off dat,
      (StrColumn.mk (some ([0, 1, 3, 6], [10, 20, 30, 40, 50, 60])) none 1 2).children
          = some (off, dat) ∧
      off.getD 0 0 = 0 ∧
      off.getD 2 0 = (dat.length : Int) ∧
      (∀ r, r < 2 → rowBytes off dat r
        = rowBytes [0, 1, 3, 6] [10, 20, 30, 40, 50, 60] (1 + r)) ∧
      ((1 : Nat) = 0 → ([0, 1, 3, 6] : List Int).length = 2 + 1 →
        (StrColumn.mk (some ([0, 1, 3, 6], [10, 20, 30, 40, 50, 60])) none 1 2).children
          = some ([0, 1, 3, 6], [10, 20, 30, 40, 50, 60])) :=
  children_view_spec
    (StrColumn.mk (some ([0, 1, 3, 6], [10, 20, 30, 40, 50, 60])) none 1 2)
    [0, 1, 3, 6] [10, 20, 30, 40, 50, 60] rfl (by decide) (by decide) (by decide) (by decide)

/-! ## C1: serialize / deserialize round trip -/

/-- Structural well-formedness of a column: the logical window fits inside
the base offsets when children are present, and the size is zero when they
are absent. -/
def StrColumn.Wf (c : StrColumn) : Prop :=
  match c.baseChildren with
  | none => c.size = 0
  | some (boff, _) => c.offset + c.size + 1 ≤ boff.length

lemma children_some (c : StrColumn) (boff : List Int) (bdata : List Nat)
    (hbc : c.baseChildren = some (boff, bdata))
    (hwin : c.offset + c.size + 1 ≤ boff.length) :
    ∃ off dat, c.children = some (off, dat) ∧ off.length = c.size + 1 := by
  by_cases hfast : c.offset = 0 ∧ boff.length = c.size + 1
  · exact ⟨boff, bdata, children_fast c boff bdata hbc hfast.1 hfast.2, hfast.2⟩
  · exact ⟨_, _, children_slow c boff bdata hbc hfast,
      derivedOffsets_length boff _ _ hwin⟩

lemma getD_true_of_not_false (m : List Bool) (r : Nat) (h : false ∉ m) :
    m.getD r true = true := by
  by_cases hr : r < m.length
  · rw [getD_eq_get _ _ _ hr]
    cases hx : m[r] with
    | false => exact absurd (hx ▸ List.getElem_mem hr) h
    | true => rfl
  · exact getD_eq_default _ _ _ (Nat.le_of_not_lt hr)

lemma sliceList_zero_of_le (l : List α) (k : Nat) (h : l.length ≤ k) :
    sliceList l 0 k = l := by
  rw [sliceList, List.drop_zero]
  exact List.take_of_length_le h

lemma buildColumn_size (mask : Option (List Bool)) (off : List Int) (dat : List Nat)
    (h : off.length ≠ 0) :
    (buildColumn mask (some (off, dat))).size = off.length - 1 := by
  unfold buildColumn initSize
  simp [h]

/-- C1: deserializing the header and frames produced by serialize yields a
column with the same row count, the same null count, the same validity at
every row position, the same derived children (hence byte-identical string
content row by row), for every well-formed column, including the zero-row
and the all-null cases. -/
theorem serialize_deserialize_roundtrip (c : StrColumn) (hwf : c.Wf) :
    ∀ c', c' = StrColumn.deserialize (c.serialize).1 (c.serialize).2 →
      c'.size = c.size ∧
      c'.nullCount = c.nullCount ∧
      (∀ r, r < c.size → c'.validAt r = c.validAt r) ∧
      c'.children = c.children ∧
      (∀ r, c'.contentAt r = c.contentAt r) := by
  intro c' hc'
  unfold StrColumn.Wf at hwf
  cases hbc : c.baseChildren with
  | none =>
    rw [hbc] at hwf
    have hch : c.children = none := children_none c hbc
    have hmask0 : c.nullCount = 0 := by
      cases hbm : c.baseMask <;>
        simp [StrColumn.nullCount, StrColumn.mask, hbm, hwf, sliceList]
    have hser : c.serialize = ({ nullCount := 0, nChildren := 0, frameCount := 0 }, []) := by
      unfold StrColumn.serialize
      rw [hch, hmask0]
      simp
    have hc'' : c' = buildColumn none none := by
      rw [hc', hser]
      unfold StrColumn.deserialize
      simp
    have hsz : c'.size = c.size := by
      rw [hc'', hwf]
      unfold buildColumn initSize
      simp
    refine ⟨hsz, ?_, ?_, ?_, ?_⟩
    · rw [hc'', hmask0]
      simp [buildColumn, StrColumn.nullCount, StrColumn.mask]
    · intro r hr
      omega
    · rw [children_none c' (by rw [hc'']; rfl), hch]
    · intro r
      unfold StrColumn.contentAt
      rw [children_none c' (by rw [hc'']; rfl), hch]
  | some pair =>
    obtain ⟨boff, bdata⟩ := pair
    rw [hbc] at hwf
    obtain ⟨off, dat, hch, hlen⟩ := children_some c boff bdata hbc hwf
    by_cases hnc : 0 < c.nullCount
    · obtain ⟨bm, hbm⟩ : ∃ bm, c.baseMask = some bm := by
        cases hbm : c.baseMask with
        | none =>
          rw [StrColumn.nullCount, StrColumn.mask, hbm] at hnc
          simp at hnc
        | some bm => exact ⟨bm, rfl⟩
      have hmask : c.mask = some (sliceList bm c.offset c.size) := by
        simp [StrColumn.mask, hbm]
      have hser : c.serialize
          = ({ nullCount := c.nullCount, nChildren := 2, frameCount := 3 },
             [Frame.ints off, Frame.bytes dat,
              Frame.bits (sliceList bm c.offset c.size)]) := by
        unfold StrColumn.serialize
        rw [hch]
        simp [hnc, hmask]
      have hc'' : c' = buildColumn (some (sliceList bm c.offset c.size))
          (some (off, dat)) := by
        rw [hc', hser]
        unfold StrColumn.deserialize
        simp [hnc, Frame.getInts, Frame.getBytes, Frame.getBits]
      have hsz : c'.size = c.size := by
        rw [hc'', buildColumn_size _ _ _ (by omega)]
        omega
      have hmlen : (sliceList bm c.offset c.size).length ≤ c.size := by
        rw [sliceList_length]
        omega
      have hch' : c'.children = some (off, dat) :=
        children_fast c' off dat (by rw [hc'']; rfl) (by rw [hc'']; rfl)
          (by rw [hsz]; exact hlen)
      refine ⟨hsz, ?_, ?_, ?_, ?_⟩
      · rw [hc'']
        rw [show (buildColumn (some (sliceList bm c.offset c.size))
              (some (off, dat))).nullCount
            = ((sliceList (sliceList bm c.offset c.size) 0
                (buildColumn (some (sliceList bm c.offset c.size))
                  (some (off, dat))).size)).count false from rfl]
        rw [show (buildColumn (some (sliceList bm c.offset c.size))
              (some (off, dat))).size = c'.size from by rw [hc'']]
        rw [hsz, sliceList_zero_of_le _ _ hmlen,
          StrColumn.nullCount, hmask]
      · intro r hr
        have h1 : c'.validAt r = (sliceList bm c.offset c.size).getD (0 + r) true := by
          rw [hc'']
          rfl
        rw [h1, Nat.zero_add, sliceList_getD _ _ _ _ _ hr,
          StrColumn.validAt, hbm]
      · rw [hch', hch]
      · intro r
        unfold StrColumn.contentAt
        rw [hch', hch]
    · have hser : c.serialize
          = ({ nullCount := c.nullCount, nChildren := 2, frameCount := 2 },
             [Frame.ints off, Frame.bytes dat]) := by
        unfold StrColumn.serialize
        rw [hch]
        simp [hnc]
      have hc'' : c' = buildColumn none (some (off, dat)) := by
        rw [hc', hser]
        unfold StrColumn.deserialize
        simp [hnc, Frame.getInts, Frame.getBytes]
      have hsz : c'.size = c.size := by
        rw [hc'', buildColumn_size _ _ _ (by omega)]
        omega
      have hch' : c'.children = some (off, dat) :=
        children_fast c' off dat (by rw [hc'']; rfl) (by rw [hc'']; rfl)
          (by rw [hsz]; exact hlen)
      refine ⟨hsz, ?_, ?_, ?_, ?_⟩
      · rw [hc'']
        rw [show (buildColumn none (some (off, dat))).nullCount = 0 from rfl]
        omega
      · intro r hr
        have h1 : c'.validAt r = true := by
          rw [hc'']
          rfl
        rw [h1]
        cases hbm : c.baseMask with
        | none => rw [StrColumn.validAt, hbm]
        | some bm =>
          have hnc0 : c.nullCount = 0 := Nat.eq_zero_of_not_pos hnc
          have hcount : (sliceList bm c.offset c.size).count false = 0 := by
            rw [StrColumn.nullCount, StrColumn.mask, hbm] at hnc0
            simpa using hnc0
          have hnf : false ∉ sliceList bm c.offset c.size :=
            List.count_eq_zero.mp hcount
          have h2 : c.validAt r = bm.getD (c.offset + r) true := by
            rw [StrColumn.validAt, hbm]
          rw [h2, ← sliceList_getD bm c.offset c.size r true hr,
            getD_true_of_not_false _ _ hnf]
      · rw [hch', hch]
      · intro r
        unfold StrColumn.contentAt
        rw [hch', hch]

/-- A concrete all-null two-row column for the round-trip witness. -/
def roundtripExample : StrColumn :=
  StrColumn.mk (some ([0, 1, 2], [7, 8])) (some [false, false]) 0 2

/-- C1 witness: the all-null two-row column round trips; the theorem is
applied at that concrete column and at its own deserialized image. -/
theorem serialize_deserialize_roundtrip_witness :
    (StrColumn.deserialize (roundtripExample.serialize).1
        (roundtripExample.serialize).2).size = roundtripExample.size ∧
    (StrColumn.deserialize (roundtripExample.serialize).1
        (roundtripExample.serialize).2).nullCount = roundtripExample.nullCount ∧
    (∀ r, r < roundtripExample.size →
      (StrColumn.deserialize (roundtripExample.serialize).1
          (roundtripExample.serialize).2).validAt r = roundtripExample.validAt r) ∧
    (StrColumn.deserialize (roundtripExample.serialize).1
        (roundtripExample.serialize).2).children = roundtripExample.children ∧
    (∀ r, (StrColumn.deserialize (roundtripExample.serialize).1
        (roundtripExample.serialize).2).contentAt r = roundtripExample.contentAt r) :=
  serialize_deserialize_roundtrip roundtripExample
    (by unfold StrColumn.Wf roundtripExample; decide) _ rfl

/-! ## Operation-level model of the StringMethods accessor -/

deriving instance DecidableEq for Except

/-- A column as the accessor operations see it: the logical sequence of
nullable rows together with the validity mask object the column carries. -/
structure OpColumn where
  rows : List (Option String)
  mask : Option (List Bool)
deriving DecidableEq

/-- Validity of row r: bit r of the mask; an absent mask means valid. -/
def OpColumn.validAt (c : OpColumn) (r : Nat) : Bool :=
  match c.mask with
  | none => true
  | some m => m.getD r true

/-- Null count of the column: false bits of the mask. -/
def OpColumn.nullCount (c : OpColumn) : Nat :=
  match c.mask with
  | none => 0
  | some m => m.count false

/-- The has_nulls attribute of the base Column class: a strictly positive
null count. -/
def OpColumn.hasNulls (c : OpColumn) : Bool :=
  decide (0 < c.nullCount)

/-- Coherence of rows and mask: the mask, when present, is row-sized, and
a row is null exactly when its validity bit is false. -/
def OpColumn.Coherent (c : OpColumn) : Prop :=
  (match c.mask with
   | none => True
   | some m => m.length = c.rows.length) ∧
  (∀ r, r < c.rows.length → (c.rows.getD r none = none ↔ c.validAt r = false))

/-- An output column produced by a kernel: a buffer of values plus a mask. -/
structure OutCol (α : Type) where
  values : List α
  mask : Option (List Bool)
deriving DecidableEq

/-- Validity of row r of an output column. -/
def OutCol.validAt (o : OutCol α) (r : Nat) : Bool :=
  match o.mask with
  | none => true
  | some m => m.getD r true

/-- Errors raised by the accessor wrappers (NotImplementedError in the
source) before any device work. -/
inductive OpError
  | caseNotSupported
  | flagsNotSupported
  | naNotSupported
  | expandNotSupported
deriving DecidableEq

/-! ### len (C3) -/

/-- StringMethods.len: an int32 buffer with one value per row filled by the
nvstrings len kernel (modelled from the spec: the length of each non-null
row, an unspecified placeholder of 0 for null rows), wrapped into a column
whose mask is the input's own mask object when the input has nulls and
absent otherwise. -/
def strLen (c : OpColumn) : OutCol Int :=
  { values := c.rows.map (fun row => match row with
      | some s => (s.length : Int)
      | none => 0),
    mask := if c.hasNulls then c.mask else none }

/-! ### contains (C3, C5, C9) -/

/-- Modelled from the spec: single-character matching of the external regex
engine, restricted to the fragment this module exercises: the dot wildcard
matches any character, every other pattern character matches itself. -/
def regexCharMatch (p c : Char) : Bool := p == '.' || p == c

/-- Whole-string match of a wildcard pattern. -/
def regexFullMatch : List Char → List Char → Bool
  | [], [] => true
  | [], _ :: _ => false
  | _ :: _, [] => false
  | p :: ps, c :: cs => regexCharMatch p c && regexFullMatch ps cs

/-- Match of a wildcard pattern against a prefix of the subject. -/
def regexMatchAt : List Char → List Char → Bool
  | [], _ => true
  | _ :: _, [] => false
  | p :: ps, c :: cs => regexCharMatch p c && regexMatchAt ps cs

/-- Match of a wildcard pattern anywhere in the subject. -/
def regexSearch (p : List Char) : List Char → Bool
  | [] => regexMatchAt p []
  | c :: cs => regexMatchAt p (c :: cs) || regexSearch p cs

/-- Modelled from the spec: the compiled-pattern contract of the external
regex engine behind nvstrings.contains, on the fragment used here: a
pattern anchored at both ends must match the whole row, a pattern anchored
only at the start must match a prefix, an unanchored pattern may match
anywhere. -/
def regexContains (p s : List Char) : Bool :=
  match p with
  | '^' :: q =>
    if q.getLast? = some '$' then regexFullMatch q.dropLast s
    else regexMatchAt q s
  | _ => regexSearch p s

/-- Literal substring containment. -/
def literalContains (p : List Char) : List Char → Bool
  | [] => p.isPrefixOf []
  | c :: cs => p.isPrefixOf (c :: cs) || literalContains p cs

/-- Modelled from the spec: the nvstrings contains kernel fills one boolean
per row: literal byte containment or a regex match for non-null rows, and
an unspecified placeholder of false for null rows (never surfaced, since
the output carries the validity mask). -/
def nvContains (pat : String) (regex : Bool) (c : OpColumn) : List Bool :=
  c.rows.map (fun row => match row with
    | none => false
    | some s =>
      if regex then regexContains pat.toList s.toList
      else literalContains pat.toList s.toList)

/-- The output column built by contains once the checks have passed: the
kernel-filled boolean buffer, wrapped with the input's own mask when the
input has nulls. -/
def containsOut (c : OpColumn) (pat : String) (regex : Bool) : OutCol Bool :=
  { values := nvContains pat regex c,
    mask := if c.hasNulls then c.mask else none }

/-- StringMethods.contains with the device kernel abstracted: the case,
flags and na checks run in this order before the output buffer is
allocated and before the kernel is invoked; only past them is the kernel
output wrapped with the input's own mask (when the input has nulls).  The
na argument is represented by whether the object passed is the np.nan
default (the source compares identity with np.nan). -/
def containsImpl (kernel : String → Bool → OpColumn → List Bool) (c : OpColumn)
    (pat : String) (caseArg : Bool) (flags : Int) (naIsNan : Bool) (regex : Bool) :
    Except OpError (OutCol Bool) :=
  if caseArg ≠ true then .error .caseNotSupported
  else if flags ≠ 0 then .error .flagsNotSupported
  else if naIsNan ≠ true then .error .naNotSupported
  else .ok { values := kernel pat regex c,
             mask := if c.hasNulls then c.mask else none }

/-- StringMethods.contains with the modelled nvstrings kernel. -/
def strContains (c : OpColumn) (pat : String) (caseArg : Bool) (flags : Int)
    (naIsNan : Bool) (regex : Bool) : Except OpError (OutCol Bool) :=
  containsImpl nvContains c pat caseArg flags naIsNan regex

/-- StringColumn.__contains__: membership of True in the boolean series
produced by contains over the anchored pattern built around the item; null
rows of that series surface as None, so only valid positions can
contribute True. -/
def stringColumnContains (c : OpColumn) (item : String) : Bool :=
  match strContains c (("^" ++ item) ++ ("$" : String)) true 0 true true with
  | .ok out =>
    (List.range c.rows.length).any (fun r => out.validAt r && out.values.getD r false)
  | .error _ => false

/-! ### replace (C4) -/

/-- Fuel-indexed left-to-right literal replacement of at most the counted
number of occurrences (no bound when the count is absent); an empty
pattern leaves the subject unchanged. -/
def replaceFuel (pat repl : List Char) : Nat → Option Nat → List Char → List Char
  | _, _, [] => []
  | 0, _, s => s
  | fuel + 1, cnt, a :: rest =>
    if cnt = some 0 then a :: rest
    else if pat.isPrefixOf (a :: rest) ∧ pat ≠ [] then
      repl ++ replaceFuel pat repl fuel (cnt.map (fun k => k - 1))
        (List.drop pat.length (a :: rest))
    else a :: replaceFuel pat repl fuel cnt rest

/-- Modelled from the spec: one row of the nvstrings replace kernel:
occurrences replaced from the first match, capped by n when n is
non-negative, unlimited when n is negative.  Literal matching is used;
for metacharacter-free patterns the regex mode of the kernel coincides
with it. -/
def replaceRow (pat repl : String) (n : Int) (s : String) : String :=
  String.mk (replaceFuel pat.toList repl.toList (s.toList.length + 1)
    (if n < 0 then none else some n.toNat) s.toList)

/-- Modelled from the spec: the nvstrings replace kernel: every non-null
row replaced, null rows pass through unchanged (positions preserved). -/
def nvReplace (pat repl : String) (n : Int) (regex : Bool) (c : OpColumn) : OpColumn :=
  { rows := c.rows.map (Option.map (replaceRow pat repl n)), mask := c.mask }

/-- StringMethods.replace: rejects a non-default case (default None) and
non-default flags, then normalizes n equal to 0 to -1 (pandas treats 0 as
all) before invoking the kernel. -/
def strReplace (c : OpColumn) (pat repl : String) (n : Int) (caseArg : Option Bool)
    (flags : Int) (regex : Bool) : Except OpError OpColumn :=
  if caseArg ≠ none then .error .caseNotSupported
  else if flags ≠ 0 then .error .flagsNotSupported
  else .ok (nvReplace pat repl (if n = 0 then -1 else n) regex c)

/-! ### split (C7) -/

/-- Fuel-indexed split on a literal delimiter with at most the counted
number of splits (no bound when the count is absent). -/
def splitFuel (d : List Char) : Nat → Option Nat → List Char → List (List Char)
  | _, _, [] => [[]]
  | 0, _, s => [s]
  | fuel + 1, cnt, a :: rest =>
    if cnt = some 0 then [a :: rest]
    else if d.isPrefixOf (a :: rest) ∧ d ≠ [] then
      [] :: splitFuel d fuel (cnt.map (fun k => k - 1)) (List.drop d.length (a :: rest))
    else
      match splitFuel d fuel cnt rest with
      | [] => [[a]]
      | t :: ts => (a :: t) :: ts

/-- Modelled from the spec: the nvstrings split kernel: an absent or empty
delimiter means the canonical single-space literal split; each non-null
row is split into tokens with at most n splits when n is non-negative
(unlimited when negative); the output is one column per token position,
of width the maximum token count, null-padded for short rows, with
all-null rows for null inputs. -/
def nvSplit (delimiter : Option String) (n : Int) (c : OpColumn) :
    List (List (Option String)) :=
  let d := (match delimiter with
    | none => (" " : String)
    | some s => if s = "" then (" " : String) else s).toList
  let cnt : Option Nat := if n < 0 then none else some n.toNat
  let toks := c.rows.map (Option.map (fun s =>
    splitFuel d (s.toList.length + 1) cnt s.toList))
  let width := toks.foldr (fun t acc => max (match t with
    | none => 0
    | some ts => ts.length) acc) 0
  (List.range width).map (fun j => toks.map (fun t => match t with
    | none => none
    | some ts => (ts[j]?).map String.mk))

/-- StringMethods.split: rejects a non-default expand, then normalizes n
equal to 0 to -1 (pandas treats 0 as all) before dispatching to the
kernel with the delimiter argument. -/
def strSplit (c : OpColumn) (pat : Option String) (n : Int) (expand : Bool) :
    Except OpError (List (List (Option String))) :=
  if expand ≠ true then .error .expandNotSupported
  else .ok (nvSplit pat (if n = 0 then -1 else n) c)

/-! ### datetime cast (C8) -/

/-- Errors of the datetime cast path. -/
inductive CastError
  | indexError
  | parseFailure
deriving DecidableEq

/-- The first non-null row: the source indexes the selection of non-null
rows at position 0 (raising when that selection is empty). -/
def firstNonNull (c : OpColumn) : Option String :=
  (c.rows.filterMap id).head?

/-- One row of the timestamp kernel: null passes through, otherwise the
row text is parsed with the single format. -/
def dtRow (parse : String → String → Option Int) (f : String) :
    Option String → Except CastError (Option Int)
  | none => .ok none
  | some s =>
    match parse f s with
    | none => .error .parseFailure
    | some v => .ok (some v)

/-- Modelled from the spec: the timestamp parsing kernel applies the one
format to every row; a row whose text cannot be parsed fails the whole
cast (the ParseFailure policy), not just that row. -/
def dtRows (parse : String → String → Option Int) (f : String) :
    List (Option String) → Except CastError (List (Option Int))
  | [] => .ok []
  | row :: rest =>
    match dtRow parse f row with
    | .error e => .error e
    | .ok v =>
      match dtRows parse f rest with
      | .error e => .error e
      | .ok vs => .ok (v :: vs)

/-- The timestamp kernel over a column. -/
def dtKernel (parse : String → String → Option Int) (f : String) (c : OpColumn) :
    Except CastError (List (Option Int)) :=
  dtRows parse f c.rows

/-- StringColumn.as_numerical_column on a datetime dtype: when no format is
passed and the column is non-empty, the format is guessed on host from the
first non-null element (indexing the empty selection raises when every row
is null) and that single guessed format is handed to the kernel; a failed
guess leaves no usable format and fails the cast (modelled from the spec:
inference failure fails the whole cast, not row by row). -/
def as_numerical_column_datetime (guess : String → Option String)
    (parse : String → String → Option Int) (c : OpColumn) (format : Option String) :
    Except CastError (List (Option Int)) :=
  match format with
  | some f => dtKernel parse f c
  | none =>
    if 0 < c.rows.length then
      match firstNonNull c with
      | none => .error .indexError
      | some s =>
        match guess s with
        | none => .error .parseFailure
        | some f => dtKernel parse f c
    else
      dtKernel parse ("") c

/-! ### cat and binary_operator (C10) -/

/-- Errors of the binary operator path. -/
inductive BinopError
  | typeError
  | attributeError
  | shapeMismatch
deriving DecidableEq

/-- Mask derived by the engine from the output rows: present exactly when
some row is null, with valid bits taken from the rows. -/
def maskOfRows (rows : List (Option String)) : Option (List Bool) :=
  if rows.any (fun r => r.isNone) then some (rows.map (fun r => r.isSome)) else none

/-- Modelled from the spec: the nvstrings cat kernel with no separator and
no null replacement: row i of the output concatenates the two operand rows
and is null when either is null; mismatched row counts fail with a shape
mismatch. -/
def catColumns (l r : OpColumn) : Except BinopError OpColumn :=
  if l.rows.length ≠ r.rows.length then .error .shapeMismatch
  else
    let rows := (l.rows.zip r.rows).map (fun p =>
      match p.1, p.2 with
      | some a, some b => some (a ++ b)
      | _, _ => none)
    .ok { rows := rows, mask := maskOfRows rows }

/-- A right-hand operand of binary_operator: either a String Column or a
column of another dtype.  The other column classes live outside this
module; all that matters here is that they are not String Columns and do
not provide the string accessor. -/
inductive AnyColumn
  | str (c : OpColumn)
  | nonstr
deriving DecidableEq

def isStringColumn : AnyColumn → Bool
  | .str _ => true
  | .nonstr => false

def getStringColumn : AnyColumn → OpColumn
  | .str c => c
  | .nonstr => { rows := [], mask := none }

/-- StringColumn.binary_operator: the operand pair is swapped under
reflect; the post-swap right-hand side is then required to be a String
Column and the operator to be add, in which case cat runs on the post-swap
pair; any other combination raises a TypeError.  A non-string post-swap
left-hand side carries no string accessor, so that path fails with an
attribute error rather than producing a column. -/
def binary_operator (self : OpColumn) (binop : String) (rhs : AnyColumn)
    (reflect : Bool) : Except BinopError OpColumn :=
  let lhs : AnyColumn := if reflect then rhs else .str self
  let rhs2 : AnyColumn := if reflect then .str self else rhs
  if isStringColumn rhs2 = true ∧ binop = "add" then
    match lhs with
    | .str lc => catColumns lc (getStringColumn rhs2)
    | .nonstr => .error .attributeError
  else .error .typeError

/-! ## C3: null propagation of len and contains -/

lemma hasNulls_of_null_row (c : OpColumn) (hco : c.Coherent) (r : Nat)
    (hr : r < c.rows.length) (hn : c.rows.getD r none = none) :
    c.hasNulls = true ∧ c.validAt r = false := by
  have hv : c.validAt r = false := (hco.2 r hr).mp hn
  refine ⟨?_, hv⟩
  rw [OpColumn.validAt] at hv
  cases hm : c.mask with
  | none => rw [hm] at hv; simp at hv
  | some m =>
    rw [hm] at hv
    have hv2 : m.getD r true = false := hv
    have hrm : r < m.length := by
      by_contra hge
      rw [getD_eq_default _ _ _ (Nat.le_of_not_lt hge)] at hv2
      simp at hv2
    have hmem : false ∈ m := by
      rw [getD_eq_get _ _ _ hrm] at hv2
      exact hv2 ▸ List.getElem_mem hrm
    have hpos : 0 < m.count false := List.count_pos_iff.mpr hmem
    rw [OpColumn.hasNulls, OpColumn.nullCount, hm]
    simpa using hpos

lemma mask_some_of_hasNulls (c : OpColumn) (h : c.hasNulls = true) :
    ∃ m, c.mask = some m := by
  cases hm : c.mask with
  | none =>
    rw [OpColumn.hasNulls, OpColumn.nullCount, hm] at h
    simp at h
  | some m => exact ⟨m, rfl⟩

/-- C3: len and contains return an output with the input's row count whose
mask is the input column's own mask when the input has nulls (and the
input then indeed carries a mask) and no mask at all otherwise, so every
null input row is null in the output at the same position. -/
theorem len_contains_null_propagation (c : OpColumn) (pat : String) (regex : Bool)
    (hco : c.Coherent) :
    (strLen c).values.length = c.rows.length ∧
    (c.hasNulls = true → (strLen c).mask = c.mask ∧ ∃ m, c.mask = some m) ∧
    (c.hasNulls = false → (strLen c).mask = none) ∧
    (∀ r, r < c.rows.length → c.rows.getD r none = none →
      (strLen c).validAt r = false) ∧
    (∀ out, strContains c pat true 0 true regex = .ok out →
      out.values.length = c.rows.length ∧
      (c.hasNulls = true → out.mask = c.mask) ∧
      (c.hasNulls = false → out.mask = none) ∧
      (∀ r, r < c.rows.length → c.rows.getD r none = none →
        out.validAt r = false)) := by
  have hmasklen : ∀ r, r < c.rows.length → c.rows.getD r none = none →
      (if c.hasNulls then c.mask else none) = c.mask ∧ c.validAt r = false := by
    intro r hr hn
    obtain ⟨h1, h2⟩ := hasNulls_of_null_row c hco r hr hn
    exact ⟨by rw [h1]; simp, h2⟩
  refine ⟨by simp [strLen], ?_, ?_, ?_, ?_⟩
  · intro h
    exact ⟨by simp [strLen, h], mask_some_of_hasNulls c h⟩
  · intro h
    simp [strLen, h]
  · intro r hr hn
    obtain ⟨h1, h2⟩ := hmasklen r hr hn
    rw [OutCol.validAt]
    rw [show (strLen c).mask = (if c.hasNulls then c.mask else none) from rfl, h1]
    rw [OpColumn.validAt] at h2
    exact h2
  · intro out hout
    have hok : strContains c pat true 0 true regex = .ok (containsOut c pat regex) := by
      simp [strContains, containsImpl, containsOut]
    rw [hok] at hout
    have hout2 : out = containsOut c pat regex := (Except.ok.inj hout).symm
    subst hout2
    refine ⟨by simp [containsOut, nvContains], ?_, ?_, ?_⟩
    · intro h; simp [containsOut, h]
    · intro h; simp [containsOut, h]
    · intro r hr hn
      obtain ⟨h1, h2⟩ := hmasklen r hr hn
      rw [OutCol.validAt]
      rw [show (containsOut c pat regex).mask
        = (if c.hasNulls then c.mask else none) from rfl, h1]
      rw [OpColumn.validAt] at h2
      exact h2

/-- C3 witness: a concrete two-row column with one null; the mask is
propagated by both len and contains and the null position stays null. -/
theorem len_contains_null_propagation_witness :
    (strLen (OpColumn.mk [some ("ab"), none] (some [true, false]))).values.length = 2 ∧
    ((OpColumn.mk [some ("ab"), none] (some [true, false])).hasNulls = true →
      (strLen (OpColumn.mk [some ("ab"), none] (some [true, false]))).mask
          = (OpColumn.mk [some ("ab"), none] (some [true, false])).mask ∧
        ∃ m, (OpColumn.mk [some ("ab"), none] (some [true, false])).mask = some m) ∧
    ((OpColumn.mk [some ("ab"), none] (some [true, false])).hasNulls = false →
      (strLen (OpColumn.mk [some ("ab"), none] (some [true, false]))).mask = none) ∧
    (∀ r, r < 2 → (OpColumn.mk [some ("ab"), none] (some [true, false])).rows.getD r none = none →
      (strLen (OpColumn.mk [some ("ab"), none] (some [true, false]))).validAt r = false) ∧
    (∀ out, strContains (OpColumn.mk [some ("ab"), none] (some [true, false]))
        ("a") true 0 true true = .ok out →
      out.values.length = 2 ∧
      ((OpColumn.mk [some ("ab"), none] (some [true, false])).hasNulls = true →
        out.mask = (OpColumn.mk [some ("ab"), none] (some [true, false])).mask) ∧
      ((OpColumn.mk [some ("ab"), none] (some [true, false])).hasNulls = false →
        out.mask = none) ∧
      (∀ r, r < 2 →
        (OpColumn.mk [some ("ab"), none] (some [true, false])).rows.getD r none = none →
        out.validAt r = false)) :=
  len_contains_null_propagation (OpColumn.mk [some ("ab"), none] (some [true, false]))
    ("a") true ⟨by decide, by decide⟩

/-! ## C5: contains rejects non-default options before device work -/

/-- C5: a non-default case, flags, or na argument makes contains fail with
the NotImplementedError-style error of the first failing check, for every
kernel alike: no output buffer is built and no kernel output is consumed,
and the option is never silently ignored. -/
theorem contains_rejects_nondefault (c : OpColumn) (pat : String) (caseArg : Bool)
    (flags : Int) (naIsNan : Bool) (regex : Bool)
    (h : ¬(caseArg = true ∧ flags = 0 ∧ naIsNan = true)) :
    ∃ e, ∀ kernel, containsImpl kernel c pat caseArg flags naIsNan regex = .error e := by
  by_cases h1 : caseArg = true
  · by_cases h2 : flags = 0
    · have h3 : naIsNan ≠ true := by tauto
      exact ⟨.naNotSupported, fun kernel => by simp [containsImpl, h1, h2, h3]⟩
    · exact ⟨.flagsNotSupported, fun kernel => by simp [containsImpl, h1, h2]⟩
  · exact ⟨.caseNotSupported, fun kernel => by simp [containsImpl, h1]⟩

/-- C5 witness: contains invoked with a non-default case argument fails
with the same error whatever the kernel. -/
theorem contains_rejects_nondefault_witness :
    ∃ e, ∀ kernel, containsImpl kernel (OpColumn.mk [some ("a")] none)
      ("a") false 0 true true = .error e :=
  contains_rejects_nondefault (OpColumn.mk [some ("a")] none) ("a") false 0 true true
    (by decide)

/-! ## C4: replace count semantics -/

/-- C4: replace with n = 0 produces the same result as replace with
n = -1 (the wrapper normalizes 0 to -1 before the kernel runs); a
negative n replaces without bound in every non-null row; a positive n
caps the replacements of each row at n, counted from the first match. -/
theorem replace_count_semantics (c : OpColumn) (pat repl : String) :
    strReplace c pat repl 0 none 0 true = strReplace c pat repl (-1) none 0 true ∧
    (∀ n : Int, n < 0 → strReplace c pat repl n none 0 true
      = .ok { rows := c.rows.map (Option.map (fun s => String.mk
              (replaceFuel pat.toList repl.toList (s.toList.length + 1) none s.toList))),
              mask := c.mask }) ∧
    (∀ n : Int, 0 < n → strReplace c pat repl n none 0 true
      = .ok { rows := c.rows.map (Option.map (fun s => String.mk
              (replaceFuel pat.toList repl.toList (s.toList.length + 1)
                (some n.toNat) s.toList))),
              mask := c.mask }) := by
  refine ⟨?_, ?_, ?_⟩
  · simp [strReplace]
  · intro n hn
    have hn0 : ¬(n = 0) := by omega
    have hrow : ∀ s, replaceRow pat repl n s
        = String.mk (replaceFuel pat.toList repl.toList (s.toList.length + 1)
            none s.toList) := by
      intro s
      simp [replaceRow, hn]
    simp only [strReplace, nvReplace, hn0, if_neg, ite_false]
    simp [hn0]
    intro a _
    cases a <;> simp [hrow]
  · intro n hn
    have hn0 : ¬(n = 0) := by omega
    have hn1 : ¬(n < 0) := by omega
    have hrow : ∀ s, replaceRow pat repl n s
        = String.mk (replaceFuel pat.toList repl.toList (s.toList.length + 1)
            (some n.toNat) s.toList) := by
      intro s
      simp [replaceRow, hn1]
    simp [strReplace, nvReplace, hn0]
    intro a _
    cases a <;> simp [hrow]

/-- C4 witness: the spec's concrete case: with rows [aaaa], pattern a,
replacement b, n = 2 yields [bbaa]; n = 0 equals unlimited and yields
[bbbb]. -/
theorem replace_count_semantics_witness :
    (strReplace (OpColumn.mk [some ("aaaa")] none) ("a") ("b") 0 none 0 true
      = strReplace (OpColumn.mk [some ("aaaa")] none) ("a") ("b") (-1) none 0 true) ∧
    strReplace (OpColumn.mk [some ("aaaa")] none) ("a") ("b") 2 none 0 true
      = .ok { rows := [some ("aaaa")].map (Option.map (fun s => String.mk
              (replaceFuel ("a" : String).toList ("b" : String).toList
                (s.toList.length + 1) (some ((2 : Int)).toNat) s.toList))),
              mask := none } ∧
    strReplace (OpColumn.mk [some ("aaaa")] none) ("a") ("b") 2 none 0 true
      = .ok (OpColumn.mk [some ("bbaa")] none) ∧
    strReplace (OpColumn.mk [some ("aaaa")] none) ("a") ("b") 0 none 0 true
      = .ok (OpColumn.mk [some ("bbbb")] none) :=
  ⟨(replace_count_semantics (OpColumn.mk [some ("aaaa")] none) ("a") ("b")).1,
   (replace_count_semantics (OpColumn.mk [some ("aaaa")] none) ("a") ("b")).2.2 2
     (by decide),
   by decide, by decide⟩

/-! ## C7: split normalization -/

/-- C7: split with n = 0 behaves identically to split with n = -1 (the
wrapper normalizes 0 to -1 before dispatch), and an absent delimiter is
dispatched with the single-space literal split default. -/
theorem split_normalization (c : OpColumn) (pat : Option String) (n : Int) :
    strSplit c pat 0 true = strSplit c pat (-1) true ∧
    strSplit c none n true = strSplit c (some (" ")) n true := by
  have hs : ((" " : String) = "") = False := by simp
  constructor
  · simp [strSplit]
  · simp [strSplit, nvSplit, hs]

/-! ## C8: datetime cast format inference -/

lemma dtRow_ok (parse : String → String → Option Int) (f : String)
    (row : Option String) (v : Option Int) (h : dtRow parse f row = .ok v) :
    v = row.bind (parse f) := by
  cases row with
  | none =>
    simp only [dtRow] at h
    exact (Except.ok.inj h).symm
  | some s =>
    simp only [dtRow] at h
    cases hp : parse f s with
    | none => rw [hp] at h; cases h
    | some w =>
      rw [hp] at h
      have hv := (Except.ok.inj h).symm
      rw [hv]
      simp [hp]

lemma dtRows_ok_spec (parse : String → String → Option Int) (f : String) :
    ∀ (l : List (Option String)) (out : List (Option Int)),
      dtRows parse f l = .ok out →
      out.length = l.length ∧
      ∀ r, r < l.length → out.getD r none = (l.getD r none).bind (parse f) := by
  intro l
  induction l with
  | nil =>
    intro out h
    simp only [dtRows] at h
    have hout := (Except.ok.inj h).symm
    subst hout
    exact ⟨rfl, fun r hr => absurd hr (by simp)⟩
  | cons row rest ih =>
    intro out h
    simp only [dtRows] at h
    cases hrow : dtRow parse f row with
    | error e => rw [hrow] at h; cases h
    | ok v =>
      rw [hrow] at h
      cases hrest : dtRows parse f rest with
      | error e => rw [hrest] at h; cases h
      | ok vs =>
        rw [hrest] at h
        have hout : v :: vs = out := Except.ok.inj h
        subst hout
        have hv := dtRow_ok parse f row v hrow
        obtain ⟨ih1, ih2⟩ := ih vs hrest
        refine ⟨by simp [ih1], ?_⟩
        intro r hr
        cases r with
        | zero => simpa using hv
        | succ k =>
          have hk : k < rest.length := by simpa using hr
          simpa using ih2 k hk

/-- C8: casting a non-empty column to datetime with no explicit format
runs the kernel with the single format guessed from the first non-null
row, applied uniformly: every output row is that one format's parse of the
corresponding input row; and when inference fails (every row null, or the
guess yields nothing) the whole cast fails rather than failing row by
row. -/
theorem datetime_format_inferred_once (guess : String → Option String)
    (parse : String → String → Option Int) (c : OpColumn)
    (hne : 0 < c.rows.length) :
    (∀ s f, firstNonNull c = some s → guess s = some f →
      as_numerical_column_datetime guess parse c none = dtKernel parse f c ∧
      ∀ out, dtKernel parse f c = .ok out →
        out.length = c.rows.length ∧
        ∀ r, r < c.rows.length →
          out.getD r none = (c.rows.getD r none).bind (parse f)) ∧
    (firstNonNull c = none →
      as_numerical_column_datetime guess parse c none = .error .indexError) ∧
    (∀ s, firstNonNull c = some s → guess s = none →
      as_numerical_column_datetime guess parse c none = .error .parseFailure) := by
  refine ⟨?_, ?_, ?_⟩
  · intro s f hs hf
    refine ⟨by simp [as_numerical_column_datetime, hne, hs, hf], ?_⟩
    intro out hout
    exact dtRows_ok_spec parse f c.rows out hout
  · intro hs
    simp [as_numerical_column_datetime, hne, hs]
  · intro s hs hf
    simp [as_numerical_column_datetime, hne, hs, hf]

/-- C8 witness: a three-row column whose first non-null row is x; the
guess function recognizes x and returns format F, the parser counts
lengths under format F; the cast equals the uniform kernel run and its
output parses every row with that one format. -/
theorem datetime_format_inferred_once_witness :
    as_numerical_column_datetime (fun s => if s = ("x" : String) then some ("F") else none)
        (fun f s => if f = ("F" : String) then some ((s.length : Int)) else none)
        (OpColumn.mk [none, some ("x"), some ("yy")] (some [false, true, true])) none
      = dtKernel (fun f s => if f = ("F" : String) then some ((s.length : Int)) else none)
          ("F") (OpColumn.mk [none, some ("x"), some ("yy")] (some [false, true, true])) ∧
    dtKernel (fun f s => if f = ("F" : String) then some ((s.length : Int)) else none)
        ("F") (OpColumn.mk [none, some ("x"), some ("yy")] (some [false, true, true]))
      = .ok [none, some 1, some 2] :=
  ⟨((datetime_format_inferred_once
      (fun s => if s = ("x" : String) then some ("F") else none)
      (fun f s => if f = ("F" : String) then some ((s.length : Int)) else none)
      (OpColumn.mk [none, some ("x"), some ("yy")] (some [false, true, true]))
      (by decide)).1 ("x") ("F") (by decide) (by decide)).1,
   by decide⟩

/-! ## C9: membership test via anchored regex -/

lemma anchored_pattern_toList (item : String) :
    (("^" ++ item) ++ ("$" : String)).toList = '^' :: (item.toList ++ ['$']) := by
  show (("^" ++ item) ++ ("$" : String)).data = '^' :: (item.data ++ ['$'])
  rw [String.data_append, String.data_append]
  rfl

lemma regexContains_anchored (item : String) (s : List Char) :
    regexContains ('^' :: (item.toList ++ ['$'])) s = regexFullMatch item.toList s := by
  simp [regexContains, List.getLast?_concat, List.dropLast_concat]

lemma nvContains_getD (pat : String) (regex : Bool) (c : OpColumn) (r : Nat)
    (hr : r < c.rows.length) :
    (nvContains pat regex c).getD r false
      = (match c.rows.getD r none with
         | none => false
         | some s => if regex then regexContains pat.toList s.toList
                     else literalContains pat.toList s.toList) := by
  rw [nvContains, map_getD c.rows _ r false none hr]

lemma containsOut_validAt_of_some (c : OpColumn) (pat : String) (regex : Bool)
    (hco : c.Coherent) (r : Nat) (hr : r < c.rows.length) (s : String)
    (hrow : c.rows.getD r none = some s) :
    (containsOut c pat regex).validAt r = true := by
  have hv : ¬(c.validAt r = false) := by
    intro hf
    have := (hco.2 r hr).mpr hf
    rw [this] at hrow
    cases hrow
  have hv2 : c.validAt r = true := by
    cases hcv : c.validAt r
    · exact absurd hcv hv
    · rfl
  cases hn : c.hasNulls
  · simp [containsOut, OutCol.validAt, hn]
  · have heq : (containsOut c pat regex).validAt r = c.validAt r := by
      simp [containsOut, OutCol.validAt, OpColumn.validAt, hn]
    rw [heq, hv2]

lemma regexFullMatch_eq_of_no_wildcard (p : List Char) :
    '.' ∉ p → ∀ s, (regexFullMatch p s = true ↔ p = s) := by
  induction p with
  | nil =>
    intro _ s
    cases s <;> simp [regexFullMatch]
  | cons a ps ih =>
    intro h s
    have ha : a ≠ '.' := fun he => h (he ▸ List.mem_cons_self a ps)
    have hps : '.' ∉ ps := fun hm => h (List.mem_cons_of_mem a hm)
    cases s with
    | nil => simp [regexFullMatch]
    | cons b bs =>
      simp only [regexFullMatch, Bool.and_eq_true, regexCharMatch, Bool.or_eq_true,
        beq_iff_eq]
      rw [ih hps bs]
      constructor
      · rintro ⟨h1 | h1, h2⟩
        · exact absurd h1 ha
        · rw [h1, h2]
      · intro he
        injection he with h1 h2
        exact ⟨Or.inr h1, h2⟩

/-- C9 counterexample: membership is an anchored regex match, not exact
equality: the single-row column [ab] reports the item a-dot as a member
(the dot matches b) although no row equals that item; the claim's
equivalence with whole-string equality fails at this input. -/
theorem member_not_exact_equality :
    stringColumnContains (OpColumn.mk [some ("ab")] none) ("a.") = true ∧
    (∀ r, r < (OpColumn.mk [some ("ab")] none).rows.length →
      (OpColumn.mk [some ("ab")] none).rows.getD r none ≠ some ("a.")) := by
  exact ⟨by decide, by decide⟩

/-- C9 amended: the membership test returns True exactly when some
non-null row matches the anchored regex built from the item (whole-string
wildcard match); when the item contains no regex metacharacter this
coincides with exact whole-string equality with some non-null row. -/
theorem member_anchored_regex (c : OpColumn) (item : String) (hco : c.Coherent) :
    (stringColumnContains c item = true ↔
      ∃ r, r < c.rows.length ∧ ∃ s, c.rows.getD r none = some s ∧
        regexFullMatch item.toList s.toList = true) ∧
    ('.' ∉ item.toList →
      (stringColumnContains c item = true ↔
        ∃ r, r < c.rows.length ∧ c.rows.getD r none = some item)) := by
  have hok : strContains c (("^" ++ item) ++ ("$" : String)) true 0 true true
      = .ok (containsOut c (("^" ++ item) ++ ("$" : String)) true) := by
    simp [strContains, containsImpl, containsOut]
  have hmem : stringColumnContains c item
      = (List.range c.rows.length).any (fun r =>
          (containsOut c (("^" ++ item) ++ ("$" : String)) true).validAt r &&
          (containsOut c (("^" ++ item) ++ ("$" : String)) true).values.getD r false) := by
    rw [stringColumnContains, hok]
  have hpoint : ∀ r, r < c.rows.length →
      (((containsOut c (("^" ++ item) ++ ("$" : String)) true).validAt r &&
        (containsOut c (("^" ++ item) ++ ("$" : String)) true).values.getD r false) = true
       ↔ ∃ s, c.rows.getD r none = some s ∧
           regexFullMatch item.toList s.toList = true) := by
    intro r hr
    have hvals : (containsOut c (("^" ++ item) ++ ("$" : String)) true).values
        = nvContains (("^" ++ item) ++ ("$" : String)) true c := rfl
    cases hrow : c.rows.getD r none with
    | none =>
      have hval : (containsOut c (("^" ++ item) ++ ("$" : String)) true).values.getD r false
          = false := by
        rw [hvals, nvContains_getD _ _ _ _ hr, hrow]
      rw [hval]
      simp [hrow]
    | some s =>
      have hval : (containsOut c (("^" ++ item) ++ ("$" : String)) true).values.getD r false
          = regexFullMatch item.toList s.toList := by
        rw [hvals, nvContains_getD _ _ _ _ hr, hrow]
        simp only [if_true]
        rw [anchored_pattern_toList, regexContains_anchored]
      have hv := containsOut_validAt_of_some c (("^" ++ item) ++ ("$" : String)) true
        hco r hr s hrow
      rw [hval, hv, Bool.true_and]
      constructor
      · intro h
        exact ⟨s, rfl, h⟩
      · rintro ⟨t, ht, hfull⟩
        have hts : t = s := (Option.some.inj ht).symm
        rw [← hts]
        exact hfull
  have hiff : stringColumnContains c item = true ↔
      ∃ r, r < c.rows.length ∧ ∃ s, c.rows.getD r none = some s ∧
        regexFullMatch item.toList s.toList = true := by
    rw [hmem, List.any_eq_true]
    constructor
    · rintro ⟨r, hrmem, hfr⟩
      have hr : r < c.rows.length := List.mem_range.mp hrmem
      exact ⟨r, hr, (hpoint r hr).mp hfr⟩
    · rintro ⟨r, hr, hs⟩
      exact ⟨r, List.mem_range.mpr hr, (hpoint r hr).mpr hs⟩
  refine ⟨hiff, ?_⟩
  intro hnd
  rw [hiff]
  constructor
  · rintro ⟨r, hr, s, hrow, hfull⟩
    have heq : item.toList = s.toList :=
      (regexFullMatch_eq_of_no_wildcard item.toList hnd s.toList).mp hfull
    have heq2 : item = s := by
      cases item
      cases s
      simp only [String.toList] at heq
      rw [heq]
    exact ⟨r, hr, by rw [hrow, heq2]⟩
  · rintro ⟨r, hr, hrow⟩
    exact ⟨r, hr, item, hrow,
      (regexFullMatch_eq_of_no_wildcard item.toList hnd item.toList).mpr rfl⟩

/-- C9 amended witness: on the single-row column [ab], membership of the
dot-free item ab is exact equality with a non-null row; the theorem is
applied at that concrete column and item. -/
theorem member_anchored_regex_witness :
    (stringColumnContains (OpColumn.mk [some ("ab")] none) ("ab") = true ↔
      ∃ r, r < (OpColumn.mk [some ("ab")] none).rows.length ∧
        ∃ s, (OpColumn.mk [some ("ab")] none).rows.getD r none = some s ∧
          regexFullMatch ("ab" : String).toList s.toList = true) ∧
    ('.' ∉ ("ab" : String).toList →
      (stringColumnContains (OpColumn.mk [some ("ab")] none) ("ab") = true ↔
        ∃ r, r < (OpColumn.mk [some ("ab")] none).rows.length ∧
          (OpColumn.mk [some ("ab")] none).rows.getD r none = some ("ab"))) :=
  member_anchored_regex (OpColumn.mk [some ("ab")] none) ("ab")
    ⟨trivial, by decide⟩

/-! ## C10: binary_operator dispatch -/

/-- C10 counterexample: with reflect true, operator add and a String
Column right-hand side, binary_operator returns the reflected
concatenation rather than cat of self with others equal to the right-hand
side as the claim states: on single rows x and y the result is yx while
cat of self with the rhs gives xy. -/
theorem binary_operator_reflect_not_self_cat :
    binary_operator (OpColumn.mk [some ("x")] none) ("add")
        (AnyColumn.str (OpColumn.mk [some ("y")] none)) true
      = .ok (OpColumn.mk [some ("yx")] none) ∧
    catColumns (OpColumn.mk [some ("x")] none) (OpColumn.mk [some ("y")] none)
      = .ok (OpColumn.mk [some ("xy")] none) ∧
    (OpColumn.mk [some ("yx")] none) ≠ (OpColumn.mk [some ("xy")] none) :=
  ⟨by decide, by decide, by decide⟩

/-- C10 amended: binary_operator succeeds only for the add operator with a
String Column on the post-reflect right-hand side: with reflect false it
returns cat of self with the rhs, with reflect true and a String Column
rhs it returns the reflected cat of the rhs with self; any other operator
raises a TypeError for every operand and reflect value, as does a
non-string rhs without reflect; and every successful non-reflected call is
exactly a cat of self with a String Column rhs. -/
theorem binary_operator_dispatch (self : OpColumn) (binop : String) (rhs : AnyColumn) :
    (∀ oc, rhs = AnyColumn.str oc → binop = "add" →
      binary_operator self binop rhs false = catColumns self oc ∧
      binary_operator self binop rhs true = catColumns oc self) ∧
    (binop ≠ "add" →
      ∀ reflect, binary_operator self binop rhs reflect = .error .typeError) ∧
    (rhs = AnyColumn.nonstr →
      binary_operator self binop rhs false = .error .typeError) ∧
    (∀ out, binary_operator self binop rhs false = .ok out →
      binop = "add" ∧ ∃ oc, rhs = AnyColumn.str oc ∧ catColumns self oc = .ok out) := by
  refine ⟨?_, ?_, ?_, ?_⟩
  · intro oc hrhs hadd
    subst hrhs
    subst hadd
    constructor
    · simp [binary_operator, isStringColumn, getStringColumn]
    · simp [binary_operator, isStringColumn, getStringColumn]
  · intro hne reflect
    cases rhs <;> cases reflect <;>
      simp [binary_operator, isStringColumn, hne]
  · intro hrhs
    subst hrhs
    simp [binary_operator, isStringColumn]
  · intro out hout
    cases hrhs : rhs with
    | nonstr =>
      rw [hrhs] at hout
      rw [show binary_operator self binop AnyColumn.nonstr false = .error .typeError from by
        simp [binary_operator, isStringColumn]] at hout
      cases hout
    | str oc =>
      rw [hrhs] at hout
      by_cases hadd : binop = "add"
      · subst hadd
        refine ⟨rfl, oc, rfl, ?_⟩
        rw [show binary_operator self ("add") (AnyColumn.str oc) false
            = catColumns self oc from by
          simp [binary_operator, isStringColumn, getStringColumn]] at hout
        exact hout
      · rw [show binary_operator self binop (AnyColumn.str oc) false
            = .error .typeError from by
          simp [binary_operator, isStringColumn, hadd]] at hout
        cases hout

/-- C10 amended witness: the dispatch theorem applied to single-row string
columns x and y with the add operator, in both reflect directions. -/
theorem binary_operator_dispatch_witness :
    binary_operator (OpColumn.mk [some ("x")] none) ("add")
        (AnyColumn.str (OpColumn.mk [some ("y")] none)) false
      = catColumns (OpColumn.mk [some ("x")] none) (OpColumn.mk [some ("y")] none) ∧
    binary_operator (OpColumn.mk [some ("x")] none) ("add")
        (AnyColumn.str (OpColumn.mk [some ("y")] none)) true
      = catColumns (OpColumn.mk [some ("y")] none) (OpColumn.mk [some ("x")] none) :=
  (binary_operator_dispatch (OpColumn.mk [some ("x")] none) ("add")
      (AnyColumn.str (OpColumn.mk [some ("y")] none))).1
    (OpColumn.mk [some ("y")] none) rfl rfl

end CudfString
